import Mathlib

/-!
Verification of the registration workflows demonstrated by
`src/notebook/1.registration.ipynb` against the repository's specification.

The notebook's own glue code (the multiway pose-graph builder loops, the
point-cloud accumulation loops, the preprocessing helpers) is embedded
directly.  The registration engine the notebook calls (feature matching,
RANSAC, FGR, ICP, and the pose-graph optimizer, all supplied by the Open3D
library, which is not part of the staged sources) is modelled from the
specification's component design; every such definition is marked
"Modelled from the spec".  Real arithmetic is embedded as exact rationals;
library numerics whose values the claims do not depend on (the SVD/Procrustes
solver, the least-squares pose updates, the information matrix) enter as
explicit oracle parameters.
-/

namespace O3DDemo

/-! ## Geometry: points, matrices, rigid transforms -/

/-- A 3D point / vector, with exact rational coordinates. -/
abbrev Pt : Type := Fin 3 → ℚ

/-- A 3 by 3 matrix. -/
abbrev Mat3 : Type := Matrix (Fin 3) (Fin 3) ℚ

/-- A 4 by 4 homogeneous matrix, as used for poses in the notebook
(`np.identity(4)`, `np.dot`, `np.linalg.inv`). -/
abbrev Mat4 : Type := Matrix (Fin 4) (Fin 4) ℚ

/-- A 6 by 6 information matrix attached to a pose-graph edge. -/
abbrev InfoMat : Type := Matrix (Fin 6) (Fin 6) ℚ

/-- Squared Euclidean distance between two points. -/
def distSq (p q : Pt) : ℚ := ∑ i, (p i - q i) ^ 2

/-- A rigid transform: rotation block plus translation, the data of the 4 by 4
homogeneous matrices the notebook passes around (spec section 3,
RigidTransform: "a 4x4 homogeneous matrix representing rotation +
translation"). -/
structure RigidTransform where
  R : Mat3
  t : Pt
deriving DecidableEq

/-- Apply a rigid transform to a point, as `PointCloud.transform` applies the
homogeneous matrix to each point: rotate then translate. -/
def RigidTransform.apply (T : RigidTransform) (p : Pt) : Pt := T.R.mulVec p + T.t

/-- The identity transform (`np.identity(4)`). -/
def RigidTransform.ident : RigidTransform := ⟨1, 0⟩

/-- Composition: `(T2.comp T1).apply p = T2.apply (T1.apply p)`. -/
def RigidTransform.comp (T2 T1 : RigidTransform) : RigidTransform :=
  ⟨T2.R * T1.R, T2.R.mulVec T1.t + T2.t⟩

/-- The inverse of a rigid transform.  For a rigid transform (orthonormal
rotation block) this closed form is exactly what `np.linalg.inv` returns for
the corresponding homogeneous matrix: rotate by the transpose, translate by
the negated rotated translation. -/
def RigidTransform.inverse (T : RigidTransform) : RigidTransform :=
  ⟨T.R.transpose, -(T.R.transpose.mulVec T.t)⟩

/-! ## The point-cloud data model (spec section 3) -/

/-- A point cloud: ordered points, optional parallel normals, optional
parallel colors. -/
structure PointCloud where
  points : List Pt
  normals : Option (List Pt)
  colors : Option (List Pt)
deriving DecidableEq

instance : Inhabited PointCloud := ⟨⟨[], none, none⟩⟩

/-- The data-model invariant: when normals/colors are present their count
equals the point count (spec section 3), as an executable check. -/
def PointCloud.sizesOk (c : PointCloud) : Bool :=
  (match c.normals with
   | some ns => ns.length == c.points.length
   | none => true) &&
  (match c.colors with
   | some cs => cs.length == c.points.length
   | none => true)

/-- Rigid-transform application to a whole cloud (`PointCloud.transform` in
the notebook's `draw_registration_results`): points are moved affinely,
normals are rotated, colors are untouched. -/
def PointCloud.transformBy (c : PointCloud) (T : RigidTransform) : PointCloud :=
  ⟨c.points.map T.apply, c.normals.map (List.map (T.R.mulVec ·)), c.colors⟩

/-! ## Claim C7: rigid round trip -/

/-- Mapping a function and then a pointwise left inverse over a list is the
identity. -/
theorem mapRoundtrip {α : Type} (f g : α → α) (h : ∀ x, g (f x) = x) :
    ∀ l : List α, (l.map f).map g = l
  | [] => rfl
  | x :: xs => by simp only [List.map_cons, h x, mapRoundtrip f g h xs]

/-- Pointwise round trip: undoing a rigid transform with its inverse is the
identity on points, given an orthonormal rotation block. -/
theorem RigidTransform.inverse_apply_apply (T : RigidTransform)
    (h : T.R.transpose * T.R = 1) (p : Pt) :
    T.inverse.apply (T.apply p) = p := by
  simp only [RigidTransform.apply, RigidTransform.inverse, Matrix.mulVec_add,
    Matrix.mulVec_mulVec, h, Matrix.one_mulVec]
  abel

/-- C7: For every point cloud and every RigidTransform T whose rotation block
is orthonormal with determinant +1, transforming the cloud by T and then by
the inverse of T reproduces the original cloud.  The embedding is over exact
rationals, so "within floating-point tolerance" is witnessed exactly. -/
theorem C7_rigid_transform_roundtrip (T : RigidTransform)
    (horth : T.R.transpose * T.R = 1) (hdet : T.R.det = 1) (c : PointCloud) :
    (c.transformBy T).transformBy T.inverse = c := by
  have hpt : ∀ p : Pt, T.inverse.apply (T.apply p) = p :=
    RigidTransform.inverse_apply_apply T horth
  have hnrm : ∀ p : Pt, T.inverse.R.mulVec (T.R.mulVec p) = p := by
    intro p
    simp only [RigidTransform.inverse, Matrix.mulVec_mulVec]
    rw [horth, Matrix.one_mulVec]
  cases c with
  | mk pts nrms cols =>
    simp only [PointCloud.transformBy, PointCloud.mk.injEq]
    refine ⟨mapRoundtrip _ _ hpt pts, ?_, trivial⟩
    cases nrms with
    | none => rfl
    | some ns =>
      show some _ = some ns
      exact congrArg some (mapRoundtrip _ _ hnrm ns)

/-- A concrete rigid transform: 90-degree rotation about the z axis plus a
nonzero translation. -/
def rotZ90 : RigidTransform := ⟨!![0, -1, 0; 1, 0, 0; 0, 0, 1], ![4, 5, 6]⟩

/-- The rotation block of `rotZ90` is orthonormal. -/
theorem rotZ90_orth : rotZ90.R.transpose * rotZ90.R = 1 := by
  refine Matrix.ext fun i j => ?_
  fin_cases i <;> fin_cases j <;>
    norm_num [rotZ90, Matrix.mul_apply, Matrix.transpose_apply,
      Fin.sum_univ_three, Matrix.one_apply, Matrix.vecHead, Matrix.vecTail,
      Fin.ext_iff]

/-- The rotation block of `rotZ90` has determinant one. -/
theorem rotZ90_det : rotZ90.R.det = 1 := by
  norm_num [rotZ90, Matrix.det_fin_three]

/-- A concrete two-point cloud carrying normals. -/
def roundtripCloud : PointCloud :=
  ⟨[![1, 2, 3], ![0, -1, 5]], some [![1, 0, 0], ![0, 0, 1]], none⟩

/-- Witness for C7 at a concrete input: a 90-degree rotation about the z axis
with a nonzero translation, applied to a two-point cloud carrying normals. -/
theorem C7_rigid_transform_roundtrip_witness :
    (roundtripCloud.transformBy rotZ90).transformBy rotZ90.inverse =
      roundtripCloud :=
  C7_rigid_transform_roundtrip rotZ90 rotZ90_orth rotZ90_det roundtripCloud

/-! ## Claim C10: the combined-cloud accumulation loops

The notebook assembles a combined cloud twice with the same loop shape:
`pcd_combined = pcds[0]` (a deep copy in the first instance) followed by
`for i in range(len(pcds) - 1): pcd_combined += pcds[i]`. -/

/-- Open3D's `+=` on point clouds: concatenates the point lists (and the
parallel normals/colors lists when both operands carry them). -/
def PointCloud.concat (a b : PointCloud) : PointCloud :=
  ⟨a.points ++ b.points,
   match a.normals, b.normals with
   | some x, some y => some (x ++ y)
   | _, _ => none,
   match a.colors, b.colors with
   | some x, some y => some (x ++ y)
   | _, _ => none⟩

/-- The accumulation loop of notebook cells 23 and 31: start from `pcds[0]`
and add `pcds[i]` for `i` in `range(len(pcds) - 1)`. -/
def pcdCombined (pcds : List PointCloud) : PointCloud :=
  (List.range (pcds.length - 1)).foldl
    (fun acc i => acc.concat (pcds.getD i default)) pcds.headI

theorem PointCloud.concat_points (a b : PointCloud) :
    (a.concat b).points = a.points ++ b.points := rfl

/-- The first `k` accumulation steps append exactly the points of the first
`k` fragments. -/
theorem pcdCombined_aux (pcds : List PointCloud) (init : PointCloud) :
    ∀ k, k ≤ pcds.length →
      ((List.range k).foldl (fun acc i => acc.concat (pcds.getD i default))
          init).points =
        init.points ++ ((pcds.take k).map PointCloud.points).flatten
  | 0, _ => by simp
  | k + 1, h => by
      have hk : k < pcds.length := h
      rw [List.range_succ, List.foldl_append, List.foldl_cons, List.foldl_nil,
        PointCloud.concat_points, pcdCombined_aux pcds init k (Nat.le_of_succ_le h),
        List.getD_eq_getElem _ _ hk]
      have hk' : k < (List.map PointCloud.points pcds).length := by simpa using hk
      have hmap : List.take (k + 1) (List.map PointCloud.points pcds) =
          List.take k (List.map PointCloud.points pcds) ++ [pcds[k].points] := by
        rw [List.take_succ, List.getElem?_eq_getElem hk']
        simp
      have key : ((pcds.take (k + 1)).map PointCloud.points).flatten =
          ((pcds.take k).map PointCloud.points).flatten ++ pcds[k].points := by
        rw [List.map_take, List.map_take, hmap, List.flatten_append]
        simp
      rw [key, List.append_assoc]

/-- C10: for `n ≥ 2` input fragments, the combined cloud holds fragment 0's
points twice, fragments 1 through n-2 once each, and never the last
fragment's points: its point list is fragment 0's points, again fragment 0's
points, then the points of the middle fragments in order - and that middle is
exactly the input list with fragment 0 and the last fragment removed. -/
theorem C10_combined_cloud_contents (pcds : List PointCloud)
    (h2 : 2 ≤ pcds.length) :
    (pcdCombined pcds).points =
      pcds.headI.points ++ pcds.headI.points ++
        (((pcds.drop 1).take (pcds.length - 2)).map PointCloud.points).flatten ∧
    (pcds.drop 1).take (pcds.length - 2) = (pcds.drop 1).dropLast := by
  constructor
  · rw [pcdCombined, pcdCombined_aux pcds pcds.headI (pcds.length - 1)
      (Nat.sub_le _ _)]
    cases pcds with
    | nil => simp at h2
    | cons p0 rest =>
      have hlen : (p0 :: rest).length - 1 = rest.length := by simp
      have htake : (p0 :: rest).take ((p0 :: rest).length - 1) =
          p0 :: rest.take ((p0 :: rest).length - 2) := by
        rw [hlen]
        cases rest with
        | nil => simp at h2
        | cons p1 rest' => simp
      rw [htake]
      simp [List.append_assoc]
  · rw [List.dropLast_eq_take]
    congr 1
    simp [Nat.sub_sub]

/-- Witness for C10: three one-point fragments; the combined cloud holds
fragment 0 twice and fragment 1 once, and the middle really is the list
without its first and last fragments. -/
theorem C10_combined_cloud_contents_witness :
    (pcdCombined [⟨[![1, 0, 0]], none, none⟩, ⟨[![2, 0, 0]], none, none⟩,
        ⟨[![3, 0, 0]], none, none⟩]).points =
      ([⟨[![1, 0, 0]], none, none⟩, ⟨[![2, 0, 0]], none, none⟩,
        (⟨[![3, 0, 0]], none, none⟩ : PointCloud)]).headI.points ++
      ([⟨[![1, 0, 0]], none, none⟩, ⟨[![2, 0, 0]], none, none⟩,
        (⟨[![3, 0, 0]], none, none⟩ : PointCloud)]).headI.points ++
        ((([⟨[![1, 0, 0]], none, none⟩, ⟨[![2, 0, 0]], none, none⟩,
        (⟨[![3, 0, 0]], none, none⟩ : PointCloud)].drop 1).take 1).map
          PointCloud.points).flatten ∧
    ([⟨[![1, 0, 0]], none, none⟩, ⟨[![2, 0, 0]], none, none⟩,
        (⟨[![3, 0, 0]], none, none⟩ : PointCloud)].drop 1).take 1 =
      ([⟨[![1, 0, 0]], none, none⟩, ⟨[![2, 0, 0]], none, none⟩,
        (⟨[![3, 0, 0]], none, none⟩ : PointCloud)].drop 1).dropLast :=
  C10_combined_cloud_contents
    [⟨[![1, 0, 0]], none, none⟩, ⟨[![2, 0, 0]], none, none⟩,
      ⟨[![3, 0, 0]], none, none⟩] (by norm_num)

/-! ## The multiway pose-graph builder (notebook function
`multiway_registration`, claims C4, C8, C9)

The builder's loops are embedded literally.  The per-pair result of
`pairwise_registration` (point-to-plane ICP plus the information matrix, both
computed inside the library) enters as the oracle function `pair`; the
builder only ever consumes its value at `(source_id, target_id)`, folds the
sequential ones into the running odometry via `np.dot`, and stores node poses
through `np.linalg.inv`, embedded as the exact nonsingular inverse. -/

/-- The exact 4 by 4 matrix inverse, `np.linalg.inv` over rationals
(adjugate over determinant). -/
def inv4 (A : Mat4) : Mat4 := A.det⁻¹ • A.adjugate

/-- A pose-graph node: one pose relative to the global frame. -/
structure PoseGraphNode where
  pose : Mat4
deriving DecidableEq

instance : Inhabited PoseGraphNode := ⟨⟨0⟩⟩

/-- A pose-graph edge: endpoint indices, relative transform, information
matrix, and the uncertain flag separating loop closures from odometry. -/
structure PoseGraphEdge where
  sourceId : ℕ
  targetId : ℕ
  transformation : Mat4
  information : InfoMat
  uncertain : Bool
deriving DecidableEq

/-- A pose graph: node sequence plus edge collection. -/
structure PoseGraph where
  nodes : List PoseGraphNode
  edges : List PoseGraphEdge
deriving DecidableEq

/-- The builder's loop state: the running cumulative odometry, and the node
and edge lists built so far. -/
structure MwState where
  odometry : Mat4
  nodes : List PoseGraphNode
  edges : List PoseGraphEdge
deriving DecidableEq

/-- One iteration of the builder's inner loop, for a fixed `source_id` and
the current `target_id`: a sequential pair (`target_id == source_id + 1`)
updates `odometry = np.dot(transformation_icp, odometry)`, appends a node
with pose `np.linalg.inv(odometry)` and an edge with `uncertain=False`; any
other pair appends only an edge with `uncertain=True`. -/
def mwProcessPair (pair : ℕ → ℕ → Mat4 × InfoMat) (sourceId : ℕ)
    (st : MwState) (targetId : ℕ) : MwState :=
  let r := pair sourceId targetId
  if targetId = sourceId + 1 then
    let od := r.1 * st.odometry
    ⟨od, st.nodes ++ [⟨inv4 od⟩],
     st.edges ++ [⟨sourceId, targetId, r.1, r.2, false⟩]⟩
  else
    ⟨st.odometry, st.nodes,
     st.edges ++ [⟨sourceId, targetId, r.1, r.2, true⟩]⟩

/-- The builder's inner loop: `for target_id in range(source_id + 1, n_pcds)`. -/
def mwInner (pair : ℕ → ℕ → Mat4 × InfoMat) (nPcds sourceId : ℕ)
    (st : MwState) : MwState :=
  (List.range' (sourceId + 1) (nPcds - (sourceId + 1))).foldl
    (mwProcessPair pair sourceId) st

/-- The builder's starting state: identity odometry and one node holding the
identity pose, appended before the loops run. -/
def mwInit : MwState := ⟨1, [⟨1⟩], []⟩

/-- The notebook's `multiway_registration` over `n_pcds` fragments: the outer
loop `for source_id in range(n_pcds)` around the inner loop. -/
def multiwayRegistration (pair : ℕ → ℕ → Mat4 × InfoMat) (nPcds : ℕ) :
    PoseGraph :=
  let final := (List.range nPcds).foldl
    (fun st sourceId => mwInner pair nPcds sourceId st) mwInit
  ⟨final.nodes, final.edges⟩

/-- The accumulated odometry after `i` sequential pairs: the left-composed
product `T(i-1,i) * ... * T(0,1)` (identity for `i = 0`). -/
def odomProd (pair : ℕ → ℕ → Mat4 × InfoMat) : ℕ → Mat4
  | 0 => 1
  | i + 1 => (pair i (i + 1)).1 * odomProd pair i

/-- The node list the builder produces once `k` sequential pairs have been
folded in. -/
def mwExpectedNodes (pair : ℕ → ℕ → Mat4 × InfoMat) (k : ℕ) :
    List PoseGraphNode :=
  ⟨1⟩ :: (List.range k).map (fun i => ⟨inv4 (odomProd pair (i + 1))⟩)

/-- The edge the builder emits for the ordered pair `(s, t)`. -/
def mwEdge (pair : ℕ → ℕ → Mat4 × InfoMat) (s t : ℕ) : PoseGraphEdge :=
  ⟨s, t, (pair s t).1, (pair s t).2, decide (t ≠ s + 1)⟩

/-- The edge list the builder produces once the first `s` sources have been
processed. -/
def mwExpectedEdges (pair : ℕ → ℕ → Mat4 × InfoMat) (nPcds s : ℕ) :
    List PoseGraphEdge :=
  (List.range s).flatMap (fun a =>
    (List.range' (a + 1) (nPcds - (a + 1))).map (mwEdge pair a))

/-- A fold over targets none of which is sequential only appends
loop-closure edges. -/
theorem mwClosureFold (pair : ℕ → ℕ → Mat4 × InfoMat) (sourceId : ℕ) :
    ∀ (ts : List ℕ) (st : MwState), (∀ t ∈ ts, t ≠ sourceId + 1) →
      ts.foldl (mwProcessPair pair sourceId) st =
        ⟨st.odometry, st.nodes,
         st.edges ++ ts.map (fun t =>
           ⟨sourceId, t, (pair sourceId t).1, (pair sourceId t).2, true⟩)⟩
  | [], st, _ => by simp
  | t :: ts, st, h => by
    have ht : t ≠ sourceId + 1 := h t (List.mem_cons_self t ts)
    rw [List.foldl_cons]
    rw [show mwProcessPair pair sourceId st t =
        ⟨st.odometry, st.nodes,
         st.edges ++ [⟨sourceId, t, (pair sourceId t).1,
           (pair sourceId t).2, true⟩]⟩ from by
      simp [mwProcessPair, ht]]
    rw [mwClosureFold pair sourceId ts _
      (fun x hx => h x (List.mem_cons_of_mem t hx))]
    simp

/-- Closed form for the builder's state after its outer loop has processed
the first `s` sources. -/
theorem mwFold_spec (pair : ℕ → ℕ → Mat4 × InfoMat) (nPcds : ℕ) :
    ∀ s, s ≤ nPcds →
      (List.range s).foldl
          (fun st sourceId => mwInner pair nPcds sourceId st) mwInit =
        ⟨odomProd pair (min s (nPcds - 1)),
         mwExpectedNodes pair (min s (nPcds - 1)),
         mwExpectedEdges pair nPcds s⟩
  | 0, _ => by simp [mwInit, mwExpectedNodes, mwExpectedEdges, odomProd]
  | s + 1, h => by
    rw [List.range_succ, List.foldl_append, List.foldl_cons, List.foldl_nil,
      mwFold_spec pair nPcds s (Nat.le_of_succ_le h)]
    by_cases hseq : s + 1 < nPcds
    · have hmin : min s (nPcds - 1) = s := Nat.min_eq_left (by omega)
      have hmin' : min (s + 1) (nPcds - 1) = s + 1 := Nat.min_eq_left (by omega)
      have hrange : nPcds - (s + 1) = (nPcds - (s + 2)) + 1 := by omega
      rw [mwInner, hmin, hmin', hrange, List.range'_succ]
      rw [List.foldl_cons]
      rw [show mwProcessPair pair s
          ⟨odomProd pair s, mwExpectedNodes pair s, mwExpectedEdges pair nPcds s⟩
          (s + 1) =
          ⟨odomProd pair (s + 1),
           mwExpectedNodes pair s ++ [⟨inv4 (odomProd pair (s + 1))⟩],
           mwExpectedEdges pair nPcds s ++
             [⟨s, s + 1, (pair s (s + 1)).1, (pair s (s + 1)).2, false⟩]⟩ from by
        simp [mwProcessPair, odomProd]]
      rw [mwClosureFold pair s _ _
        (fun t htm => by
          rcases List.mem_range'_1.mp htm with ⟨hlo, _⟩
          omega)]
      refine congrArg₂ (MwState.mk _) ?_ ?_
      · rw [mwExpectedNodes, mwExpectedNodes, List.range_succ]
        simp
      · rw [mwExpectedEdges, mwExpectedEdges, List.range_succ,
          List.flatMap_append]
        simp only [List.flatMap_cons, List.flatMap_nil, List.append_nil,
          List.append_assoc]
        refine congrArg _ ?_
        rw [hrange, List.range'_succ, List.map_cons]
        rw [show mwEdge pair s (s + 1) =
            ⟨s, s + 1, (pair s (s + 1)).1, (pair s (s + 1)).2, false⟩ from by
          simp [mwEdge]]
        rw [List.singleton_append]
        refine congrArg _ (List.map_congr_left fun t htm => ?_)
        rcases List.mem_range'_1.mp htm with ⟨hlo, _⟩
        have : t ≠ s + 1 := by omega
        simp [mwEdge, this]
    · have hs1 : s + 1 = nPcds := by omega
      have hrange : nPcds - (s + 1) = 0 := by omega
      have hmin : min s (nPcds - 1) = min (s + 1) (nPcds - 1) := by omega
      rw [mwInner, hrange]
      simp only [List.range', List.foldl_nil]
      rw [hmin]
      refine congrArg (MwState.mk _ _) ?_
      rw [mwExpectedEdges, mwExpectedEdges, List.range_succ,
        List.flatMap_append]
      simp [hrange]

/-- The builder's final pose graph, in closed form. -/
theorem multiwayRegistration_eq (pair : ℕ → ℕ → Mat4 × InfoMat) (nPcds : ℕ) :
    multiwayRegistration pair nPcds =
      ⟨mwExpectedNodes pair (min nPcds (nPcds - 1)),
       mwExpectedEdges pair nPcds nPcds⟩ := by
  rw [multiwayRegistration, mwFold_spec pair nPcds nPcds (Nat.le_refl _)]

/-- A concrete pairwise-registration oracle: identity transform, zero
information matrix, for every pair. -/
def pairOne : ℕ → ℕ → Mat4 × InfoMat := fun _ _ => (1, 0)

/-- C8: the builder's nested loops emit only edges with source index strictly
below target index, so no constructed pose graph ever contains a self-edge.
`multiway_registration` is the sole operation of the repository that creates
pose-graph edges. -/
theorem C8_no_self_edges (pair : ℕ → ℕ → Mat4 × InfoMat) (nPcds : ℕ)
    (e : PoseGraphEdge) (he : e ∈ (multiwayRegistration pair nPcds).edges) :
    e.sourceId < e.targetId ∧ e.sourceId ≠ e.targetId := by
  rw [multiwayRegistration_eq] at he
  rcases List.mem_flatMap.mp he with ⟨a, _, hm⟩
  rcases List.mem_map.mp hm with ⟨t, ht, rfl⟩
  rcases List.mem_range'_1.mp ht with ⟨hlo, _⟩
  exact ⟨by show a < t; omega, by show a ≠ t; omega⟩

/-- Witness for C8: in the pose graph over three fragments with a concrete
pairwise oracle, the sequential edge (0, 1) has distinct endpoints. -/
theorem C8_no_self_edges_witness :
    (mwEdge pairOne 0 1).sourceId < (mwEdge pairOne 0 1).targetId ∧
      (mwEdge pairOne 0 1).sourceId ≠ (mwEdge pairOne 0 1).targetId :=
  C8_no_self_edges pairOne 3 (mwEdge pairOne 0 1) (by
    rw [multiwayRegistration_eq]
    refine List.mem_flatMap.mpr ⟨0, by simp, List.mem_map.mpr ⟨1, ?_, rfl⟩⟩
    simp [List.mem_range'_1])

/-- C4 (amended): for every pairwise oracle and at least one input fragment,
the builder yields exactly one node per fragment; every edge is marked
certain (`uncertain = false`) exactly when it joins a sequential pair; and
each sequential pair's transform is both stored on its edge and folded into
the cumulative odometry whose inverse initializes the next node.  (With zero
fragments the builder still holds its one seed node, the counterexample
below.) -/
theorem C4_builder_structure (pair : ℕ → ℕ → Mat4 × InfoMat) (nPcds : ℕ) :
    (1 ≤ nPcds → (multiwayRegistration pair nPcds).nodes.length = nPcds) ∧
    (∀ e ∈ (multiwayRegistration pair nPcds).edges,
        (e.uncertain = false ↔ e.targetId = e.sourceId + 1)) ∧
    (∀ i, i + 1 < nPcds →
        (⟨i, i + 1, (pair i (i + 1)).1, (pair i (i + 1)).2, false⟩ :
            PoseGraphEdge) ∈ (multiwayRegistration pair nPcds).edges ∧
        (multiwayRegistration pair nPcds).nodes.getD (i + 1) default =
          ⟨inv4 ((pair i (i + 1)).1 * odomProd pair i)⟩) := by
  refine ⟨fun h1 => ?_, fun e he => ?_, fun i hi => ⟨?_, ?_⟩⟩
  · rw [multiwayRegistration_eq]
    show (mwExpectedNodes pair (min nPcds (nPcds - 1))).length = nPcds
    rw [show min nPcds (nPcds - 1) = nPcds - 1 from by omega]
    simp [mwExpectedNodes]
    omega
  · rw [multiwayRegistration_eq] at he
    rcases List.mem_flatMap.mp he with ⟨a, _, hm⟩
    rcases List.mem_map.mp hm with ⟨t, _, rfl⟩
    show decide (t ≠ a + 1) = false ↔ t = a + 1
    simp
  · rw [multiwayRegistration_eq]
    refine List.mem_flatMap.mpr ⟨i, List.mem_range.mpr (by omega),
      List.mem_map.mpr ⟨i + 1, List.mem_range'_1.mpr ⟨Nat.le_refl _, by omega⟩,
        ?_⟩⟩
    simp [mwEdge]
  · rw [multiwayRegistration_eq]
    show (mwExpectedNodes pair (min nPcds (nPcds - 1))).getD (i + 1) default = _
    rw [show min nPcds (nPcds - 1) = nPcds - 1 from by omega]
    rw [mwExpectedNodes, List.getD_cons_succ]
    have hlen : i < ((List.range (nPcds - 1)).map
        (fun j => (⟨inv4 (odomProd pair (j + 1))⟩ : PoseGraphNode))).length := by
      simp
      omega
    rw [List.getD_eq_getElem _ _ hlen]
    simp [odomProd]

/-- Counterexample to C4 as stated: with zero input fragments the builder
still produces its seed node, so the node count (one) differs from the
fragment count (zero). -/
theorem C4_builder_structure_counterexample :
    (multiwayRegistration pairOne 0).nodes.length ≠ 0 := by
  rw [multiwayRegistration_eq]
  simp [mwExpectedNodes]

/-- C9 (amended): over `n ≥ 1` fragments the pose graph has exactly `n`
nodes; node 0 holds the identity pose and every later node `i` is seeded
with the inverse of the left-composed product
`T(i-1,i) * ... * T(0,1)` of the sequential pairwise transforms - the
inverse of the accumulated odometry, not the odometry itself.  (With zero
fragments the node count is one, not zero, the counterexample below.) -/
theorem C9_node_initial_poses (pair : ℕ → ℕ → Mat4 × InfoMat) (nPcds : ℕ)
    (h1 : 1 ≤ nPcds) :
    (multiwayRegistration pair nPcds).nodes.length = nPcds ∧
    (multiwayRegistration pair nPcds).nodes.getD 0 default = ⟨1⟩ ∧
    (∀ i, 1 ≤ i → i < nPcds →
      (multiwayRegistration pair nPcds).nodes.getD i default =
        ⟨inv4 (odomProd pair i)⟩) := by
  refine ⟨?_, ?_, fun i hi1 hin => ?_⟩
  · rw [multiwayRegistration_eq]
    show (mwExpectedNodes pair (min nPcds (nPcds - 1))).length = nPcds
    rw [show min nPcds (nPcds - 1) = nPcds - 1 from by omega]
    simp [mwExpectedNodes]
    omega
  · rw [multiwayRegistration_eq]
    show (mwExpectedNodes pair (min nPcds (nPcds - 1))).getD 0 default = _
    rw [mwExpectedNodes, List.getD_cons_zero]
  · rw [multiwayRegistration_eq]
    show (mwExpectedNodes pair (min nPcds (nPcds - 1))).getD i default = _
    rw [show min nPcds (nPcds - 1) = nPcds - 1 from by omega]
    obtain ⟨j, rfl⟩ : ∃ j, i = j + 1 := ⟨i - 1, by omega⟩
    rw [mwExpectedNodes, List.getD_cons_succ]
    have hlen : j < ((List.range (nPcds - 1)).map
        (fun a => (⟨inv4 (odomProd pair (a + 1))⟩ : PoseGraphNode))).length := by
      simp
      omega
    rw [List.getD_eq_getElem _ _ hlen]
    simp

/-- Witness for C9 at three fragments with a concrete pairwise oracle. -/
theorem C9_node_initial_poses_witness :
    (multiwayRegistration pairOne 3).nodes.length = 3 ∧
    (multiwayRegistration pairOne 3).nodes.getD 0 default = ⟨1⟩ ∧
    (∀ i, 1 ≤ i → i < 3 →
      (multiwayRegistration pairOne 3).nodes.getD i default =
        ⟨inv4 (odomProd pairOne i)⟩) :=
  C9_node_initial_poses pairOne 3 (by norm_num)

/-- Counterexample to C9 as stated: with zero input fragments the node count
is one, not zero. -/
theorem C9_node_initial_poses_counterexample :
    ¬ ((multiwayRegistration (fun _ _ => ((1 : Mat4), (1 : InfoMat))) 0).nodes.length
        = 0) := by
  rw [multiwayRegistration_eq]
  simp [mwExpectedNodes]

/-! ## Registration results and errors (spec sections 3 and 7) -/

/-- The hard-failure taxonomy of spec section 7: (a) InvalidInput and
(b) MissingPrerequisite fail fast; numerical degeneracy and non-convergence
are handled locally and never raised. -/
inductive RegError where
  | invalidInput
  | missingPrerequisite
deriving DecidableEq

/-- ICP estimation kind (spec section 4.6). -/
inductive EstimationKind where
  | pointToPoint
  | pointToPlane
deriving DecidableEq

/-- A registration result: transform, fitness (inlier ratio) and the squared
RMSE over inlier correspondences.  The RMSE itself is the nonnegative square
root of `inlierRmseSq`; storing the square keeps the embedding exact. -/
structure RegistrationResult where
  transformation : RigidTransform
  fitness : ℚ
  inlierRmseSq : ℚ
deriving DecidableEq

/-- The minimum of a rational list, `none` on the empty list. -/
def listMin : List ℚ → Option ℚ
  | [] => none
  | x :: xs =>
    match listMin xs with
    | none => some x
    | some m => some (min x m)

theorem listMin_mem : ∀ {l : List ℚ} {v : ℚ}, listMin l = some v → v ∈ l
  | [], _, h => by simp [listMin] at h
  | x :: xs, v, h => by
    rw [listMin] at h
    cases hxs : listMin xs with
    | none =>
      rw [hxs] at h
      cases h
      exact List.mem_cons_self x xs
    | some m =>
      rw [hxs] at h
      cases h
      rcases min_choice x m with hc | hc
      · rw [hc]; exact List.mem_cons_self x xs
      · rw [hc]; exact List.mem_cons_of_mem x (listMin_mem hxs)

/-- The squared distance from a (transformed) point to its nearest neighbor
in the target, `none` when the target is empty: the geometric correspondence
search of spec section 4.3 for one source point. -/
def nearestSqDist (p : Pt) (tgts : List Pt) : Option ℚ :=
  listMin (tgts.map (distSq p))

/-- Modelled from the spec: evaluation of a transform on a source/target
pair (library code, not under `src/`).  Each source point is matched to its
nearest target point; matches within the distance threshold are inliers;
fitness is the inlier fraction and `inlierRmseSq` the mean squared inlier
residual (spec glossary: Fitness, RMSE). -/
def evaluateRegistration (src tgt : PointCloud) (T : RigidTransform)
    (maxDist : ℚ) : RegistrationResult :=
  let ds := src.points.filterMap (fun p => nearestSqDist (T.apply p) tgt.points)
  let inl := ds.filter (fun d => d ≤ maxDist ^ 2)
  ⟨T, (inl.length : ℚ) / (src.points.length : ℚ), inl.sum / (inl.length : ℚ)⟩

/-- Malformed input for a source/target registration call (spec section 7,
InvalidInput): an empty point cloud or mismatched parallel arrays. -/
def malformedPair (src tgt : PointCloud) : Prop :=
  src.points = [] ∨ tgt.points = [] ∨ src.sizesOk = false ∨ tgt.sizesOk = false

instance (src tgt : PointCloud) : Decidable (malformedPair src tgt) := by
  unfold malformedPair
  infer_instance

/-- Modelled from the spec: `registration_icp` (library code, not under
`src/`; spec sections 4.6 and 7).  Malformed input (empty cloud, mismatched
parallel arrays) fails fast with InvalidInput; point-to-plane estimation
without target normals fails fast with MissingPrerequisite; otherwise the
loop's least-squares pose updates (library numerics, the oracle `steps`) are
composed onto the initial guess and the result is evaluated there - whether
or not the iteration budget converged, a result object is returned. -/
def registrationIcp (src tgt : PointCloud) (maxDist : ℚ)
    (initT : RigidTransform) (kind : EstimationKind)
    (steps : List RigidTransform) : Except RegError RegistrationResult :=
  if malformedPair src tgt then
    .error .invalidInput
  else if kind = EstimationKind.pointToPlane ∧ tgt.normals = none then
    .error .missingPrerequisite
  else
    .ok (evaluateRegistration src tgt
      (steps.foldl (fun cur upd => upd.comp cur) initT) maxDist)

/-! ## The multiway dataset preparation and pairwise registration
(notebook functions `prepare_multiway_dataset` and `pairwise_registration`,
claim C1) -/

/-- Modelled from the spec: the external point-cloud source (spec section 6)
"supplies a PointCloud (points, optional colors) given a dataset identifier
or file path" - a loaded cloud carries no normals. -/
def readPointCloud (pts : List Pt) (cols : Option (List Pt)) : PointCloud :=
  ⟨pts, none, cols⟩

/-- The voxel cell of a point at a given voxel size. -/
def voxelCell (voxelSize : ℚ) (p : Pt) : ℤ × ℤ × ℤ :=
  (⌊p 0 / voxelSize⌋, ⌊p 1 / voxelSize⌋, ⌊p 2 / voxelSize⌋)

/-- The indices kept by voxel downsampling: the first point of each distinct
voxel cell, in order. -/
def voxelKept (voxelSize : ℚ) (pts : List Pt) : List ℕ :=
  ((List.range pts.length).foldl (fun st i =>
      let c := voxelCell voxelSize (pts.getD i 0)
      if c ∈ st.2 then st else (st.1 ++ [i], c :: st.2))
    (([], []) : List ℕ × List (ℤ × ℤ × ℤ))).1

/-- Modelled from the spec: `voxel_down_sample` (library code, not under
`src/`).  The spec only says downsampling "produces a new, smaller
PointCloud" (section 3); the claims depend on nothing beyond the output
keeping the parallel-array invariant and carrying normals exactly when the
input does, so the model keeps one representative point per voxel cell
together with that point's optional normal and color entries. -/
def voxelDownSample (c : PointCloud) (voxelSize : ℚ) : PointCloud :=
  let ks := voxelKept voxelSize c.points
  ⟨ks.map (fun i => c.points.getD i 0),
   c.normals.map (fun ns => ks.map (fun i => ns.getD i 0)),
   c.colors.map (fun cs => ks.map (fun i => cs.getD i 0))⟩

/-- The notebook's `prepare_multiway_dataset`: read each fragment and only
voxel-downsample it - normals are never estimated. -/
def prepareMultiwayDataset (raws : List (List Pt × Option (List Pt)))
    (voxelSize : ℚ) : List PointCloud :=
  raws.map (fun r => voxelDownSample (readPointCloud r.1 r.2) voxelSize)

/-- The notebook's `pairwise_registration`: coarse point-to-plane ICP from
the identity, fine point-to-plane ICP from the coarse result, then the
library's information matrix (oracle `infoM`). -/
def pairwiseRegistration (source target : PointCloud) (dCoarse dFine : ℚ)
    (steps1 steps2 : List RigidTransform) (infoM : InfoMat) :
    Except RegError (RigidTransform × InfoMat) :=
  match registrationIcp source target dCoarse RigidTransform.ident
      .pointToPlane steps1 with
  | .error e => .error e
  | .ok coarse =>
    match registrationIcp source target dFine coarse.transformation
        .pointToPlane steps2 with
    | .error e => .error e
    | .ok fine => .ok (fine.transformation, infoM)

/-- Fragments produced by `prepare_multiway_dataset` carry no normals and
satisfy the parallel-array invariant. -/
theorem prepareMultiwayDataset_no_normals
    (raws : List (List Pt × Option (List Pt))) (voxelSize : ℚ)
    (c : PointCloud) (hmem : c ∈ prepareMultiwayDataset raws voxelSize) :
    c.normals = none ∧ c.sizesOk = true := by
  rcases List.mem_map.mp hmem with ⟨r, _, rfl⟩
  refine ⟨rfl, ?_⟩
  rw [PointCloud.sizesOk]
  cases r.2 <;> simp [voxelDownSample, readPointCloud]

/-- C1: point-to-plane ICP on a target without normals is a hard
MissingPrerequisite error, not a RegistrationResult; in particular
`pairwise_registration` fails this way on any (well-formed, nonempty)
fragments prepared by `prepare_multiway_dataset`, which only
voxel-downsamples and never estimates normals. -/
theorem C1_point_to_plane_missing_normals
    (src tgt : PointCloud) (maxDist dCoarse dFine : ℚ)
    (initT : RigidTransform) (steps steps1 steps2 : List RigidTransform)
    (infoM : InfoMat) (raws : List (List Pt × Option (List Pt)))
    (voxelSize : ℚ) (tgtFrag : PointCloud)
    (hs : src.points ≠ []) (hssz : src.sizesOk = true)
    (ht : tgt.points ≠ []) (htsz : tgt.sizesOk = true)
    (hnn : tgt.normals = none)
    (hmem : tgtFrag ∈ prepareMultiwayDataset raws voxelSize)
    (htf : tgtFrag.points ≠ []) :
    registrationIcp src tgt maxDist initT .pointToPlane steps =
        .error .missingPrerequisite ∧
    pairwiseRegistration src tgtFrag dCoarse dFine steps1 steps2 infoM =
        .error .missingPrerequisite := by
  have hicp : ∀ (t' : PointCloud) (d : ℚ) (i0 : RigidTransform)
      (st : List RigidTransform), t'.points ≠ [] → t'.sizesOk = true →
      t'.normals = none →
      registrationIcp src t' d i0 .pointToPlane st =
        .error .missingPrerequisite := by
    intro t' d i0 st ht' htsz' hnn'
    rw [registrationIcp, if_neg (by simp [malformedPair, hs, ht', hssz, htsz']),
      if_pos ⟨rfl, hnn'⟩]
  rcases prepareMultiwayDataset_no_normals raws voxelSize tgtFrag hmem with
    ⟨hfn, hfsz⟩
  refine ⟨hicp tgt maxDist initT steps ht htsz hnn, ?_⟩
  rw [pairwiseRegistration, hicp tgtFrag dCoarse RigidTransform.ident steps1
    htf hfsz hfn]

/-- A concrete raw fragment list: one fragment holding one point, no colors. -/
def rawFragments : List (List Pt × Option (List Pt)) := [([![0, 0, 0]], none)]

/-- Witness for C1: concrete nonempty well-formed clouds; the direct ICP call
and the multiway pairwise call both fail with MissingPrerequisite. -/
theorem C1_point_to_plane_missing_normals_witness :
    registrationIcp ⟨[![1, 0, 0]], none, none⟩
        (voxelDownSample (readPointCloud [![0, 0, 0]] none) 1) 1
        RigidTransform.ident .pointToPlane [] =
      .error .missingPrerequisite ∧
    pairwiseRegistration ⟨[![1, 0, 0]], none, none⟩
        (voxelDownSample (readPointCloud [![0, 0, 0]] none) 1) 1 1 [] [] 0 =
      .error .missingPrerequisite :=
  C1_point_to_plane_missing_normals ⟨[![1, 0, 0]], none, none⟩
    (voxelDownSample (readPointCloud [![0, 0, 0]] none) 1) 1 1 1
    RigidTransform.ident [] [] [] 0 rawFragments 1
    (voxelDownSample (readPointCloud [![0, 0, 0]] none) 1)
    (by simp) (by rfl) (by decide) (by rfl) (by rfl)
    (List.mem_singleton.mpr rfl) (by decide)

/-! ## Feature correspondence search (spec section 4.3, claim C3) -/

/-- A local geometric descriptor: a fixed-length real vector (33 dimensions
for FPFH; the model allows any length). -/
abbrev Feat : Type := List ℚ

/-- Squared Euclidean distance between two feature vectors. -/
def featDistSq (f g : Feat) : ℚ :=
  ((f.zip g).map (fun pr => (pr.1 - pr.2) ^ 2)).sum

/-- A hypothesized correspondence: index `i` in the source, `j` in the
target (spec section 3). -/
structure Corr where
  i : ℕ
  j : ℕ
deriving DecidableEq

/-- The index of the nearest feature (first wins on ties), 0 on the empty
list. -/
def nearestIdx (f : Feat) : List Feat → ℕ
  | [] => 0
  | g :: gs =>
    if gs.isEmpty then 0
    else
      let j := nearestIdx f gs
      if featDistSq f g ≤ featDistSq f (gs.getD j []) then 0 else j + 1

/-- `nearestIdx` returns an index whose feature is at minimal distance. -/
theorem nearestIdx_min (f : Feat) :
    ∀ (gs : List Feat) (k : ℕ), k < gs.length →
      featDistSq f (gs.getD (nearestIdx f gs) []) ≤ featDistSq f (gs.getD k [])
  | [], k, hk => by simp at hk
  | [g], 0, _ => le_refl _
  | [g], k + 1, hk => by simp at hk
  | g :: g' :: gs, k, hk => by
    rw [nearestIdx]
    rw [show ((g' :: gs).isEmpty) = false from rfl]
    simp only [Bool.false_eq_true, if_false]
    by_cases hle : featDistSq f g ≤
        featDistSq f ((g' :: gs).getD (nearestIdx f (g' :: gs)) [])
    · rw [if_pos hle]
      cases k with
      | zero => exact le_refl _
      | succ k' =>
        rw [List.getD_cons_zero, List.getD_cons_succ]
        exact le_trans hle
          (nearestIdx_min f (g' :: gs) k' (by simpa using hk))
    · rw [if_neg hle]
      cases k with
      | zero =>
        rw [List.getD_cons_zero, List.getD_cons_succ]
        exact le_of_lt (lt_of_not_le hle)
      | succ k' =>
        rw [List.getD_cons_succ, List.getD_cons_succ]
        exact nearestIdx_min f (g' :: gs) k' (by simpa using hk)

/-- Modelled from the spec: `find_feature_correspondences` (library code
behind `registration_ransac_based_on_feature_matching`, not under `src/`;
spec section 4.3).  Each source feature is matched to its nearest target
feature; with the mutual filter only pairs that are also nearest in the
reverse direction are kept. -/
def findFeatureCorrespondences (srcF tgtF : List Feat) (mutualFilter : Bool) :
    List Corr :=
  let base := (List.range srcF.length).map
    (fun i => (⟨i, nearestIdx (srcF.getD i []) tgtF⟩ : Corr))
  if mutualFilter then
    base.filter (fun c => nearestIdx (tgtF.getD c.j []) srcF == c.i)
  else base

/-- C3: with the mutual filter set, a returned pair (i, j) always has j
nearest (in feature space) to source feature i among all target features,
and i nearest to target feature j among all source features. -/
theorem C3_mutual_filter_symmetric_nn (srcF tgtF : List Feat) (c : Corr)
    (hc : c ∈ findFeatureCorrespondences srcF tgtF true) :
    (∀ k, k < tgtF.length →
      featDistSq (srcF.getD c.i []) (tgtF.getD c.j []) ≤
        featDistSq (srcF.getD c.i []) (tgtF.getD k [])) ∧
    (∀ k, k < srcF.length →
      featDistSq (tgtF.getD c.j []) (srcF.getD c.i []) ≤
        featDistSq (tgtF.getD c.j []) (srcF.getD k [])) := by
  rw [findFeatureCorrespondences, if_pos rfl] at hc
  rcases List.mem_filter.mp hc with ⟨hbase, hpred⟩
  have hrev : nearestIdx (tgtF.getD c.j []) srcF = c.i := by
    simpa using hpred
  rcases List.mem_map.mp hbase with ⟨i0, _, hceq⟩
  have hj : c.j = nearestIdx (srcF.getD c.i []) tgtF := by
    rw [← hceq]
  constructor
  · intro k hk
    rw [hj]
    exact nearestIdx_min (srcF.getD c.i []) tgtF k hk
  · intro k hk
    rw [← hrev]
    exact nearestIdx_min (tgtF.getD c.j []) srcF k hk

/-- Witness for C3: two 1-dimensional feature sets where the mutual filter
keeps the pair (0, 0); both minimality facts hold there. -/
theorem C3_mutual_filter_symmetric_nn_witness :
    (∀ k, k < [[(1 : ℚ)], [9]].length →
      featDistSq ([[(0 : ℚ)], [10]].getD (0 : ℕ) [])
          ([[(1 : ℚ)], [9]].getD (0 : ℕ) []) ≤
        featDistSq ([[(0 : ℚ)], [10]].getD (0 : ℕ) [])
          ([[(1 : ℚ)], [9]].getD k [])) ∧
    (∀ k, k < [[(0 : ℚ)], [10]].length →
      featDistSq ([[(1 : ℚ)], [9]].getD (0 : ℕ) [])
          ([[(0 : ℚ)], [10]].getD (0 : ℕ) []) ≤
        featDistSq ([[(1 : ℚ)], [9]].getD (0 : ℕ) [])
          ([[(0 : ℚ)], [10]].getD k [])) :=
  C3_mutual_filter_symmetric_nn [[0], [10]] [[1], [9]] ⟨0, 0⟩ (by
    have h1 : nearestIdx [(0 : ℚ)] [[1], [9]] = 0 := by
      norm_num [nearestIdx, featDistSq]
    have h2 : nearestIdx [(1 : ℚ)] [[0], [10]] = 0 := by
      norm_num [nearestIdx, featDistSq]
    rw [findFeatureCorrespondences, if_pos rfl]
    refine List.mem_filter.mpr ⟨List.mem_map.mpr ⟨0, by simp, ?_⟩, ?_⟩
    · show (⟨0, nearestIdx [(0 : ℚ)] [[1], [9]]⟩ : Corr) = ⟨0, 0⟩
      rw [h1]
    · show (nearestIdx [(1 : ℚ)] [[0], [10]] == 0) = true
      rw [h2]
      rfl)

/-! ## Global registration by RANSAC (spec section 4.4, claims C2 and C6) -/

/-- A minimal sample: 3 correspondences (`ransac_n=3` in the notebook). -/
abbrev Sample : Type := Corr × Corr × Corr

/-- The three correspondences of a sample, as a list. -/
def sampleList (s : Sample) : List Corr := [s.1, s.2.1, s.2.2]

/-- The point of a cloud at an index. -/
def ptAt (c : PointCloud) (i : ℕ) : Pt := c.points.getD i 0

/-- Modelled from the spec: one edge-length check
(`CorrespondenceCheckerBasedOnEdgeLength(0.9)`): the two clouds' internal
pairwise squared distances must agree within the tolerance factor. -/
def edgePairOk (src tgt : PointCloud) (tol : ℚ) (a b : Corr) : Bool :=
  let dsrc := distSq (ptAt src a.i) (ptAt src b.i)
  let dtgt := distSq (ptAt tgt a.j) (ptAt tgt b.j)
  decide (tol ^ 2 * dtgt ≤ dsrc ∧ tol ^ 2 * dsrc ≤ dtgt)

/-- Modelled from the spec: the edge-length rejection check over all three
pairs of a sample. -/
def edgeLenOk (src tgt : PointCloud) (tol : ℚ) (s : Sample) : Bool :=
  edgePairOk src tgt tol s.1 s.2.1 && edgePairOk src tgt tol s.1 s.2.2 &&
    edgePairOk src tgt tol s.2.1 s.2.2

/-- Modelled from the spec: the distance rejection check
(`CorrespondenceCheckerBasedOnDistance`): every sampled correspondence must
lie within the threshold under the candidate transform. -/
def distOk (src tgt : PointCloud) (maxDist : ℚ) (T : RigidTransform)
    (s : Sample) : Bool :=
  (sampleList s).all (fun c =>
    decide (distSq (T.apply (ptAt src c.i)) (ptAt tgt c.j) ≤ maxDist ^ 2))

/-- The geometric rejection checks of one RANSAC iteration: edge-length
ratio and distance, with the candidate transform produced by the library's
closed-form Procrustes solver (oracle `solve`). -/
def passChecks (src tgt : PointCloud) (tol maxDist : ℚ)
    (solve : Sample → RigidTransform) (s : Sample) : Bool :=
  edgeLenOk src tgt tol s && distOk src tgt maxDist (solve s) s

/-- Modelled from the spec: candidate evaluation against the full
correspondence set with a distance threshold (spec section 4.4): inlier
count gives fitness, inlier residuals the squared RMSE. -/
def evaluateOnCorrs (src tgt : PointCloud) (corrs : List Corr)
    (T : RigidTransform) (maxDist : ℚ) : RegistrationResult :=
  let ds := corrs.map (fun c => distSq (T.apply (ptAt src c.i)) (ptAt tgt c.j))
  let inl := ds.filter (fun d => d ≤ maxDist ^ 2)
  ⟨T, (inl.length : ℚ) / (ds.length : ℚ), inl.sum / (inl.length : ℚ)⟩

/-- The result RANSAC starts from and returns when no sample ever passes:
identity transform, fitness 0 (and zero squared RMSE). -/
def initResult : RegistrationResult := ⟨RigidTransform.ident, 0, 0⟩

/-- Candidate `cand` strictly beats the current best: higher fitness, or
equal fitness and strictly lower RMSE. -/
def strictlyBetter (cand best : RegistrationResult) : Prop :=
  best.fitness < cand.fitness ∨
    (cand.fitness = best.fitness ∧ cand.inlierRmseSq < best.inlierRmseSq)

instance (cand best : RegistrationResult) :
    Decidable (strictlyBetter cand best) := by
  unfold strictlyBetter
  infer_instance

/-- `b` scores at least as well as `a`: higher fitness, or equal fitness and
no larger RMSE. -/
def asGoodAs (b a : RegistrationResult) : Prop :=
  a.fitness < b.fitness ∨
    (a.fitness = b.fitness ∧ b.inlierRmseSq ≤ a.inlierRmseSq)

theorem asGoodAs_refl (a : RegistrationResult) : asGoodAs a a :=
  Or.inr ⟨rfl, le_refl _⟩

theorem asGoodAs_trans (c b a : RegistrationResult) (h1 : asGoodAs c b)
    (h2 : asGoodAs b a) : asGoodAs c a := by
  rcases h1 with h1 | ⟨h1f, h1r⟩ <;> rcases h2 with h2 | ⟨h2f, h2r⟩
  · exact Or.inl (lt_trans h2 h1)
  · exact Or.inl (by rw [h2f]; exact h1)
  · exact Or.inl (by rw [← h1f]; exact h2)
  · exact Or.inr ⟨h2f.trans h1f, h1r.trans h2r⟩

theorem strictlyBetter_asGoodAs {cand best : RegistrationResult}
    (h : strictlyBetter cand best) : asGoodAs cand best := by
  rcases h with h | ⟨hf, hr⟩
  · exact Or.inl h
  · exact Or.inr ⟨hf.symm, le_of_lt hr⟩

theorem not_strictlyBetter_asGoodAs {cand best : RegistrationResult}
    (h : ¬ strictlyBetter cand best) : asGoodAs best cand := by
  rw [strictlyBetter] at h
  push_neg at h
  rcases h with ⟨hle, himp⟩
  rcases lt_or_eq_of_le hle with hlt | heq
  · exact Or.inl hlt
  · exact Or.inr ⟨heq, himp heq⟩

/-- One RANSAC iteration on the running best result: skip a sample failing
the rejection checks; otherwise keep the better of the evaluated candidate
and the current best (ties in fitness broken by lower RMSE). -/
def ransacStep (check : Sample → Bool) (ev : Sample → RegistrationResult)
    (best : RegistrationResult) (s : Sample) : RegistrationResult :=
  if check s = true then
    (if strictlyBetter (ev s) best then ev s else best)
  else best

/-- Modelled from the spec: the RANSAC hypothesize-and-verify loop (spec
section 4.4).  The sampled minimal sets are the input stream `samples` (the
random sampling and the probabilistic early stop only decide how many
samples are drawn); the loop starts from the identity result and keeps the
best-scoring evaluation. -/
def ransacRun (check : Sample → Bool) (ev : Sample → RegistrationResult)
    (samples : List Sample) : RegistrationResult :=
  samples.foldl (ransacStep check ev) initResult

/-- The fold invariant of the RANSAC loop: the result is the starting value
or some passing sample's evaluation; it scores at least as well as every
passing sample's evaluation; and it scores at least as well as the starting
value. -/
theorem ransacFold_spec (check : Sample → Bool)
    (ev : Sample → RegistrationResult) :
    ∀ (samples : List Sample) (best : RegistrationResult),
      (samples.foldl (ransacStep check ev) best = best ∨
        ∃ s ∈ samples, check s = true ∧
          samples.foldl (ransacStep check ev) best = ev s) ∧
      (∀ s ∈ samples, check s = true →
        asGoodAs (samples.foldl (ransacStep check ev) best) (ev s)) ∧
      asGoodAs (samples.foldl (ransacStep check ev) best) best
  | [], best => ⟨Or.inl rfl, by simp, asGoodAs_refl best⟩
  | s :: ss, best => by
    rcases ransacFold_spec check ev ss (ransacStep check ev best s) with
      ⟨h1, h2, h3⟩
    rw [List.foldl_cons]
    have hstep : ransacStep check ev best s = best ∨
        (check s = true ∧ ransacStep check ev best s = ev s) := by
      rw [ransacStep]
      by_cases hc : check s = true
      · rw [if_pos hc]
        by_cases hb : strictlyBetter (ev s) best
        · exact Or.inr ⟨hc, if_pos hb⟩
        · exact Or.inl (if_neg hb)
      · exact Or.inl (if_neg hc)
    have hgood : asGoodAs (ransacStep check ev best s) best := by
      rw [ransacStep]
      by_cases hc : check s = true
      · rw [if_pos hc]
        by_cases hb : strictlyBetter (ev s) best
        · rw [if_pos hb]; exact strictlyBetter_asGoodAs hb
        · rw [if_neg hb]; exact asGoodAs_refl best
      · rw [if_neg hc]; exact asGoodAs_refl best
    have hcover : check s = true →
        asGoodAs (ransacStep check ev best s) (ev s) := by
      intro hc
      rw [ransacStep, if_pos hc]
      by_cases hb : strictlyBetter (ev s) best
      · rw [if_pos hb]
        exact asGoodAs_refl (ev s)
      · rw [if_neg hb]
        exact not_strictlyBetter_asGoodAs hb
    refine ⟨?_, ?_, ?_⟩
    · rcases h1 with h1 | ⟨t, ht, hchk, heq⟩
      · rcases hstep with he | ⟨hc, he⟩
        · exact Or.inl (by rw [h1, he])
        · exact Or.inr ⟨s, List.mem_cons_self s ss, hc, by rw [h1, he]⟩
      · exact Or.inr ⟨t, List.mem_cons_of_mem s ht, hchk, heq⟩
    · intro t htm hchk
      rcases List.mem_cons.mp htm with rfl | htm'
      · exact asGoodAs_trans _ _ _ h3 (hcover hchk)
      · exact h2 t htm' hchk
    · exact asGoodAs_trans _ _ _ h3 hgood

/-- C2: a RANSAC invocation returns the identity transform with fitness 0
when no sampled minimal set ever passes the geometric rejection checks
(edge-length ratio and distance); otherwise the returned result is the
best-scoring evaluation seen over all iterations - it is some passing
sample's evaluation (or the no-worse identity start) and scores at least as
well as every passing sample's evaluation, ties in fitness broken by lower
RMSE. -/
theorem C2_ransac_selection (src tgt : PointCloud) (corrs : List Corr)
    (tol maxDist : ℚ) (samples : List Sample)
    (solve : Sample → RigidTransform) :
    ((∀ s ∈ samples, passChecks src tgt tol maxDist solve s = false) →
      ransacRun (passChecks src tgt tol maxDist solve)
          (fun s => evaluateOnCorrs src tgt corrs (solve s) maxDist) samples =
        ⟨RigidTransform.ident, 0, 0⟩) ∧
    (ransacRun (passChecks src tgt tol maxDist solve)
          (fun s => evaluateOnCorrs src tgt corrs (solve s) maxDist) samples =
        ⟨RigidTransform.ident, 0, 0⟩ ∨
      ∃ s ∈ samples, passChecks src tgt tol maxDist solve s = true ∧
        ransacRun (passChecks src tgt tol maxDist solve)
            (fun s => evaluateOnCorrs src tgt corrs (solve s) maxDist)
            samples =
          evaluateOnCorrs src tgt corrs (solve s) maxDist) ∧
    (∀ s ∈ samples, passChecks src tgt tol maxDist solve s = true →
      asGoodAs
        (ransacRun (passChecks src tgt tol maxDist solve)
          (fun s => evaluateOnCorrs src tgt corrs (solve s) maxDist) samples)
        (evaluateOnCorrs src tgt corrs (solve s) maxDist)) := by
  rcases ransacFold_spec (passChecks src tgt tol maxDist solve)
      (fun s => evaluateOnCorrs src tgt corrs (solve s) maxDist) samples
      initResult with ⟨h1, h2, _⟩
  refine ⟨fun hall => ?_, ?_, h2⟩
  · rcases h1 with h1 | ⟨s, hs, hchk, _⟩
    · exact h1
    · rw [hall s hs] at hchk
      cases hchk
  · exact h1

/-! ## Quality-metric bounds and the registration entry points (claim C6) -/

theorem distSq_nonneg (p q : Pt) : 0 ≤ distSq p q :=
  Finset.sum_nonneg fun _ _ => sq_nonneg _

/-- A ratio of natural counts with numerator at most denominator lies in
[0, 1] (0/0 included, as rational division by zero is zero). -/
theorem countRatio_bounds {a b : ℕ} (h : a ≤ b) :
    0 ≤ (a : ℚ) / (b : ℚ) ∧ (a : ℚ) / (b : ℚ) ≤ 1 := by
  refine ⟨by positivity, ?_⟩
  rcases Nat.eq_zero_or_pos b with hb | hb
  · subst hb
    rw [Nat.le_zero.mp h]
    norm_num
  · rw [div_le_one (by exact_mod_cast hb)]
    exact_mod_cast h

/-- RANSAC candidate evaluation always yields fitness in [0, 1] and a
nonnegative squared RMSE. -/
theorem evaluateOnCorrs_bounds (src tgt : PointCloud) (corrs : List Corr)
    (T : RigidTransform) (maxDist : ℚ) :
    0 ≤ (evaluateOnCorrs src tgt corrs T maxDist).fitness ∧
    (evaluateOnCorrs src tgt corrs T maxDist).fitness ≤ 1 ∧
    0 ≤ (evaluateOnCorrs src tgt corrs T maxDist).inlierRmseSq := by
  rw [evaluateOnCorrs]
  rcases countRatio_bounds (b :=
      (corrs.map (fun c =>
        distSq (T.apply (ptAt src c.i)) (ptAt tgt c.j))).length)
    (List.length_filter_le _ _) with ⟨hlo, hhi⟩
  refine ⟨hlo, hhi, ?_⟩
  refine div_nonneg (List.sum_nonneg fun d hd => ?_) (Nat.cast_nonneg _)
  rcases List.mem_map.mp (List.mem_of_mem_filter hd) with ⟨c, _, rfl⟩
  exact distSq_nonneg _ _

/-- Geometric registration evaluation always yields fitness in [0, 1] and a
nonnegative squared RMSE. -/
theorem evaluateRegistration_bounds (src tgt : PointCloud)
    (T : RigidTransform) (maxDist : ℚ) :
    0 ≤ (evaluateRegistration src tgt T maxDist).fitness ∧
    (evaluateRegistration src tgt T maxDist).fitness ≤ 1 ∧
    0 ≤ (evaluateRegistration src tgt T maxDist).inlierRmseSq := by
  rw [evaluateRegistration]
  rcases countRatio_bounds (a :=
      ((src.points.filterMap
          (fun p => nearestSqDist (T.apply p) tgt.points)).filter
        (fun d => d ≤ maxDist ^ 2)).length)
    (le_trans (List.length_filter_le _ _) (List.length_filterMap_le _ _)) with
    ⟨hlo, hhi⟩
  refine ⟨hlo, hhi, ?_⟩
  refine div_nonneg (List.sum_nonneg fun d hd => ?_) (Nat.cast_nonneg _)
  rcases List.mem_filterMap.mp (List.mem_of_mem_filter hd) with ⟨p, _, hmin⟩
  rcases List.mem_map.mp (listMin_mem hmin) with ⟨q, _, rfl⟩
  exact distSq_nonneg _ _

/-- The RANSAC loop's result satisfies the quality-metric bounds whenever
every candidate evaluation does (the identity start does). -/
theorem ransacRun_bounds (check : Sample → Bool)
    (ev : Sample → RegistrationResult) (samples : List Sample)
    (hev : ∀ s, 0 ≤ (ev s).fitness ∧ (ev s).fitness ≤ 1 ∧
      0 ≤ (ev s).inlierRmseSq) :
    0 ≤ (ransacRun check ev samples).fitness ∧
    (ransacRun check ev samples).fitness ≤ 1 ∧
    0 ≤ (ransacRun check ev samples).inlierRmseSq := by
  rcases (ransacFold_spec check ev samples initResult).1 with h | ⟨s, _, _, h⟩
  · rw [ransacRun, h]
    exact ⟨le_refl 0, by norm_num [initResult], le_refl 0⟩
  · rw [ransacRun, h]
    exact hev s

/-- Malformed input for a feature-based registration call: malformed clouds
or feature arrays not parallel to their clouds. -/
def malformedFeaturePair (src tgt : PointCloud) (srcF tgtF : List Feat) :
    Prop :=
  malformedPair src tgt ∨ srcF.length ≠ src.points.length ∨
    tgtF.length ≠ tgt.points.length

instance (src tgt : PointCloud) (srcF tgtF : List Feat) :
    Decidable (malformedFeaturePair src tgt srcF tgtF) := by
  unfold malformedFeaturePair
  infer_instance

/-- Modelled from the spec:
`registration_ransac_based_on_feature_matching` as the notebook invokes it
(mutual filter set, library code not under `src/`).  Malformed input fails
fast; otherwise the RANSAC loop runs on the mutual-filtered feature
correspondences and always returns a result object. -/
def registrationRansac (src tgt : PointCloud) (srcF tgtF : List Feat)
    (tol maxDist : ℚ) (samples : List Sample)
    (solve : Sample → RigidTransform) : Except RegError RegistrationResult :=
  if malformedFeaturePair src tgt srcF tgtF then .error .invalidInput
  else
    .ok (ransacRun (passChecks src tgt tol maxDist solve)
      (fun s => evaluateOnCorrs src tgt
        (findFeatureCorrespondences srcF tgtF true) (solve s) maxDist)
      samples)

/-- Modelled from the spec: `registration_fgr_based_on_feature_matching`
(library code not under `src/`; spec section 4.5).  The graduated
non-convexity updates are library numerics (oracle `steps`, composed from
the identity); fitness and RMSE are computed post-hoc with the distance
threshold; a result object is returned even when the iteration budget ends
without convergence. -/
def registrationFgr (src tgt : PointCloud) (srcF tgtF : List Feat)
    (maxDist : ℚ) (steps : List RigidTransform) :
    Except RegError RegistrationResult :=
  if malformedFeaturePair src tgt srcF tgtF then .error .invalidInput
  else
    .ok (evaluateRegistration src tgt
      (steps.foldl (fun cur upd => upd.comp cur) RigidTransform.ident) maxDist)

/-- C6: every registration call (RANSAC, FGR, ICP) that does not fail hard
returns a result whose fitness lies in [0, 1] and whose (squared) RMSE is
nonnegative - including exhausted iteration budgets, whose oracle update
streams are arbitrary here; and each call fails hard exactly on malformed
input (empty cloud, mismatched parallel arrays) or a missing prerequisite
(point-to-plane ICP without target normals). -/
theorem C6_metrics_and_hard_failures (src tgt : PointCloud)
    (srcF tgtF : List Feat) (tol maxDist dIcp : ℚ) (samples : List Sample)
    (solve : Sample → RigidTransform) (initT : RigidTransform)
    (kind : EstimationKind) (steps fsteps : List RigidTransform) :
    (∀ r, registrationRansac src tgt srcF tgtF tol maxDist samples solve =
        .ok r → 0 ≤ r.fitness ∧ r.fitness ≤ 1 ∧ 0 ≤ r.inlierRmseSq) ∧
    ((∃ e, registrationRansac src tgt srcF tgtF tol maxDist samples solve =
        .error e) ↔ malformedFeaturePair src tgt srcF tgtF) ∧
    (∀ r, registrationFgr src tgt srcF tgtF maxDist fsteps = .ok r →
        0 ≤ r.fitness ∧ r.fitness ≤ 1 ∧ 0 ≤ r.inlierRmseSq) ∧
    ((∃ e, registrationFgr src tgt srcF tgtF maxDist fsteps = .error e) ↔
        malformedFeaturePair src tgt srcF tgtF) ∧
    (∀ r, registrationIcp src tgt dIcp initT kind steps = .ok r →
        0 ≤ r.fitness ∧ r.fitness ≤ 1 ∧ 0 ≤ r.inlierRmseSq) ∧
    ((∃ e, registrationIcp src tgt dIcp initT kind steps = .error e) ↔
        (malformedPair src tgt ∨
          (kind = .pointToPlane ∧ tgt.normals = none))) := by
  refine ⟨?_, ?_, ?_, ?_, ?_, ?_⟩
  · intro r hr
    rw [registrationRansac] at hr
    by_cases hm : malformedFeaturePair src tgt srcF tgtF
    · rw [if_pos hm] at hr
      cases hr
    · rw [if_neg hm] at hr
      cases hr
      exact ransacRun_bounds _ _ _ fun s => evaluateOnCorrs_bounds _ _ _ _ _
  · rw [registrationRansac]
    by_cases hm : malformedFeaturePair src tgt srcF tgtF
    · simp [hm]
    · simp [hm]
  · intro r hr
    rw [registrationFgr] at hr
    by_cases hm : malformedFeaturePair src tgt srcF tgtF
    · rw [if_pos hm] at hr
      cases hr
    · rw [if_neg hm] at hr
      cases hr
      exact evaluateRegistration_bounds _ _ _ _
  · rw [registrationFgr]
    by_cases hm : malformedFeaturePair src tgt srcF tgtF
    · simp [hm]
    · simp [hm]
  · intro r hr
    rw [registrationIcp] at hr
    by_cases hm : malformedPair src tgt
    · rw [if_pos hm] at hr
      cases hr
    · rw [if_neg hm] at hr
      by_cases hp : kind = EstimationKind.pointToPlane ∧ tgt.normals = none
      · rw [if_pos hp] at hr
        cases hr
      · rw [if_neg hp] at hr
        cases hr
        exact evaluateRegistration_bounds _ _ _ _
  · rw [registrationIcp]
    by_cases hm : malformedPair src tgt
    · simp [hm]
    · rw [if_neg hm]
      by_cases hp : kind = EstimationKind.pointToPlane ∧ tgt.normals = none
      · rw [if_pos hp]
        simp [hp.1, hp.2, hm]
      · rw [if_neg hp]
        simp [hm, hp]

/-! ## Pose-graph optimization with edge pruning (spec section 4.7,
claim C5)

The notebook's `global_optimization` cell calls the library's
Levenberg-Marquardt pose-graph optimizer with an edge-prune threshold; the
whole component is library code, modelled from the spec.  The numeric
residual of an edge at given node poses (its SE(3) log composed with the
information matrix) and the candidate steps the LM solver proposes are
library numerics, entering as the oracles `res` and `cands`. -/

/-- Modelled from the spec: the residual-implied line-process weight of an
edge whose (information-weighted) squared residual is `r`, with scale `mu`:
`(mu / (mu + r))^2`. -/
def lineWeight (mu r : ℚ) : ℚ := (mu / (mu + r)) ^ 2

/-- The total weighted residual of a pose graph: the sum over its edges of
the oracle residual at the current node poses. -/
def totalResidual (res : List PoseGraphNode → PoseGraphEdge → ℚ)
    (g : PoseGraph) : ℚ :=
  (g.edges.map (res g.nodes)).sum

/-- Modelled from the spec: edge pruning.  An edge is kept when it is a
certain (odometry) edge or its line-process weight reaches the prune
threshold; an uncertain edge whose weight falls below the threshold is
dropped.  Node poses are untouched. -/
def pruneEdges (res : List PoseGraphNode → PoseGraphEdge → ℚ)
    (mu thr : ℚ) (g : PoseGraph) : PoseGraph :=
  ⟨g.nodes,
   g.edges.filter (fun e =>
     !e.uncertain || decide (thr ≤ lineWeight mu (res g.nodes e)))⟩

/-- Modelled from the spec: one accepted-or-rejected Levenberg-Marquardt
step - a candidate pose set replaces the current one only when it does not
increase the total weighted residual ("returns best pose set found"). -/
def lmStep (res : List PoseGraphNode → PoseGraphEdge → ℚ)
    (cur : PoseGraph) (p : List PoseGraphNode) : PoseGraph :=
  if totalResidual res ⟨p, cur.edges⟩ ≤ totalResidual res cur then
    ⟨p, cur.edges⟩
  else cur

/-- Modelled from the spec: one optimization pass, folding the LM candidate
steps (library numerics, oracle stream `cands`) over the graph. -/
def lmPass (res : List PoseGraphNode → PoseGraphEdge → ℚ)
    (cands : List (List PoseGraphNode)) (g : PoseGraph) : PoseGraph :=
  cands.foldl (lmStep res) g

/-- Modelled from the spec: the outer optimize-prune loop with an iteration
cap (`fuel`): run a pass, prune; stop when no edge was pruned, else re-run
on the pruned graph. -/
def globalOptimization (res : List PoseGraphNode → PoseGraphEdge → ℚ)
    (cands : ℕ → List (List PoseGraphNode)) (mu thr : ℚ) :
    ℕ → PoseGraph → PoseGraph
  | 0, g => g
  | fuel + 1, g =>
    if (pruneEdges res mu thr (lmPass res (cands fuel) g)).edges.length =
        (lmPass res (cands fuel) g).edges.length then
      lmPass res (cands fuel) g
    else
      globalOptimization res cands mu thr fuel
        (pruneEdges res mu thr (lmPass res (cands fuel) g))

/-- The line-process weight is antitone in the residual. -/
theorem lineWeight_antitone {mu r r' : ℚ} (hmu : 0 < mu) (hr : 0 ≤ r)
    (hrr : r ≤ r') : lineWeight mu r' ≤ lineWeight mu r := by
  rw [lineWeight, lineWeight]
  have h1 : 0 < mu + r := by linarith
  have hq : mu / (mu + r') ≤ mu / (mu + r) :=
    div_le_div_of_nonneg_left (le_of_lt hmu) h1 (by linarith)
  have h2 : 0 < mu + r' := by linarith
  have hq0 : 0 ≤ mu / (mu + r') := le_of_lt (div_pos hmu h2)
  exact pow_le_pow_left₀ hq0 hq 2

/-- Membership in the pruned edge set, characterized. -/
theorem pruneEdges_mem_iff (res : List PoseGraphNode → PoseGraphEdge → ℚ)
    (mu thr : ℚ) (g : PoseGraph) (e : PoseGraphEdge) (he : e ∈ g.edges) :
    e ∈ (pruneEdges res mu thr g).edges ↔
      (e.uncertain = false ∨ thr ≤ lineWeight mu (res g.nodes e)) := by
  rw [pruneEdges]
  constructor
  · intro h
    rcases List.mem_filter.mp h with ⟨_, hp⟩
    simpa using hp
  · intro h
    exact List.mem_filter.mpr ⟨he, by simpa using h⟩

theorem lmStep_edges (res : List PoseGraphNode → PoseGraphEdge → ℚ)
    (cur : PoseGraph) (p : List PoseGraphNode) :
    (lmStep res cur p).edges = cur.edges := by
  rw [lmStep]
  split <;> rfl

theorem lmStep_total_le (res : List PoseGraphNode → PoseGraphEdge → ℚ)
    (cur : PoseGraph) (p : List PoseGraphNode) :
    totalResidual res (lmStep res cur p) ≤ totalResidual res cur := by
  rw [lmStep]
  split
  · next h => exact h
  · exact le_refl _

theorem lmPass_edges (res : List PoseGraphNode → PoseGraphEdge → ℚ) :
    ∀ (cands : List (List PoseGraphNode)) (g : PoseGraph),
      (lmPass res cands g).edges = g.edges
  | [], _ => rfl
  | p :: ps, g => by
    rw [lmPass, List.foldl_cons]
    rw [show ps.foldl (lmStep res) (lmStep res g p) =
      lmPass res ps (lmStep res g p) from rfl]
    rw [lmPass_edges res ps (lmStep res g p), lmStep_edges]

theorem lmPass_total_le (res : List PoseGraphNode → PoseGraphEdge → ℚ) :
    ∀ (cands : List (List PoseGraphNode)) (g : PoseGraph),
      totalResidual res (lmPass res cands g) ≤ totalResidual res g
  | [], _ => le_refl _
  | p :: ps, g => by
    rw [lmPass, List.foldl_cons]
    rw [show ps.foldl (lmStep res) (lmStep res g p) =
      lmPass res ps (lmStep res g p) from rfl]
    exact le_trans (lmPass_total_le res ps (lmStep res g p))
      (lmStep_total_le res g p)

/-- Pruning never increases the total weighted residual (the dropped terms
are nonnegative). -/
theorem pruneEdges_total_le (res : List PoseGraphNode → PoseGraphEdge → ℚ)
    (mu thr : ℚ) (g : PoseGraph)
    (hres : ∀ e ∈ g.edges, 0 ≤ res g.nodes e) :
    totalResidual res (pruneEdges res mu thr g) ≤ totalResidual res g := by
  rw [totalResidual, totalResidual, pruneEdges]
  refine List.Sublist.sum_le_sum
    ((List.filter_sublist g.edges).map (res g.nodes)) fun x hx => ?_
  rcases List.mem_map.mp hx with ⟨e, he, rfl⟩
  exact hres e he

/-- With more fuel than edges, the optimize-prune loop ends prune-stable:
no further edge would be pruned from its result. -/
theorem globalOptimization_prune_stable
    (res : List PoseGraphNode → PoseGraphEdge → ℚ)
    (cands : ℕ → List (List PoseGraphNode)) (mu thr : ℚ) :
    ∀ (fuel : ℕ) (g : PoseGraph), g.edges.length < fuel →
      (pruneEdges res mu thr
          (globalOptimization res cands mu thr fuel g)).edges =
        (globalOptimization res cands mu thr fuel g).edges
  | 0, g, h => absurd h (by omega)
  | fuel + 1, g, h => by
    rw [globalOptimization]
    by_cases heq :
        (pruneEdges res mu thr (lmPass res (cands fuel) g)).edges.length =
          (lmPass res (cands fuel) g).edges.length
    · rw [if_pos heq]
      exact List.Sublist.eq_of_length (List.filter_sublist _) heq
    · rw [if_neg heq]
      refine globalOptimization_prune_stable res cands mu thr fuel _ ?_
      have hsub : (pruneEdges res mu thr
          (lmPass res (cands fuel) g)).edges.length ≤
          (lmPass res (cands fuel) g).edges.length :=
        List.Sublist.length_le (List.filter_sublist _)
      have hlm : (lmPass res (cands fuel) g).edges = g.edges :=
        lmPass_edges res (cands fuel) g
      rw [hlm] at hsub heq
      omega

/-- C5: during pose-graph optimization with pruning, (1) an edge is dropped
only when it is uncertain and its line-process weight falls below the prune
threshold; (2) an edge whose residual stays below any residual bound whose
weight still reaches the threshold is never removed; (3) re-running an
optimization pass on the pruned graph never increases the total weighted
residual; and (4) the loop repeats until a pass prunes nothing (its result
is prune-stable given fuel beyond the edge count) or the iteration cap is
hit. -/
theorem C5_optimization_edge_pruning
    (res : List PoseGraphNode → PoseGraphEdge → ℚ)
    (cands : ℕ → List (List PoseGraphNode)) (mu thr : ℚ) (g : PoseGraph) :
    (∀ e ∈ g.edges, e ∉ (pruneEdges res mu thr g).edges →
      e.uncertain = true ∧ lineWeight mu (res g.nodes e) < thr) ∧
    (∀ e ∈ g.edges, ∀ rthr : ℚ, 0 < mu → 0 ≤ res g.nodes e →
      res g.nodes e ≤ rthr → thr ≤ lineWeight mu rthr →
      e ∈ (pruneEdges res mu thr g).edges) ∧
    ((∀ nodes e, 0 ≤ res nodes e) → ∀ k,
      totalResidual res (lmPass res (cands k) (pruneEdges res mu thr g)) ≤
        totalResidual res g) ∧
    (∀ fuel, g.edges.length < fuel →
      (pruneEdges res mu thr
          (globalOptimization res cands mu thr fuel g)).edges =
        (globalOptimization res cands mu thr fuel g).edges) := by
  refine ⟨fun e he hout => ?_, fun e he rthr hmu hr0 hrle hwthr => ?_,
    fun hres k => ?_, fun fuel hf =>
      globalOptimization_prune_stable res cands mu thr fuel g hf⟩
  · by_cases hu : e.uncertain = true
    · refine ⟨hu, ?_⟩
      by_cases hw : thr ≤ lineWeight mu (res g.nodes e)
      · exact absurd ((pruneEdges_mem_iff res mu thr g e he).mpr
          (Or.inr hw)) hout
      · exact lt_of_not_le hw
    · exact absurd ((pruneEdges_mem_iff res mu thr g e he).mpr
        (Or.inl (Bool.not_eq_true e.uncertain ▸ hu))) hout
  · refine (pruneEdges_mem_iff res mu thr g e he).mpr (Or.inr ?_)
    exact le_trans hwthr (lineWeight_antitone hmu hr0 hrle)
  · exact le_trans (lmPass_total_le res (cands k) (pruneEdges res mu thr g))
      (pruneEdges_total_le res mu thr g fun e he => hres g.nodes e)

end O3DDemo
